import Mathlib

/-!
# XBMC-BlastDav: the directory-listing pipeline and its cache

A shallow embedding of `main.go`: the cache worker `cachemanager`, the request
handlers `webdav`, `headget` and `propfind`, the panic handler `senderr`, and the
parts of the Go standard library they call (`url.QueryEscape`,
`url.QueryUnescape`, `strconv.FormatInt`, `filepath.Clean`, `filepath.Abs`, the
`http.ResponseWriter` protocol).

Go strings and byte slices are lists of bytes.  Unix timestamps are `Int`; they
are `int64` seconds in the source, and differences of clock readings stay far
inside the `int64` range.

Conventions of the embedding:
* a handler is a function from the request, the environment (`Env`: configuration,
  clock, file system, library functions whose results are only copied) and the
  cache map it reads, to an `Outcome`: the state of its response writer, the file
  system calls it made and the entries it sent on `cachewrite`;
* `panic` and the deferred `senderr` are explicit: a handler body returns the
  panic value it raised, if any, and `senderr` turns it into a status;
* a handler reads the global `cachemap` at one instant;
* `net/url`, `path/filepath` (on Unix) and the response writer of `net/http` are
  modelled after their source in current Go releases; a nil `*os.File` is closed
  without a panic, as `(*File).Close` does;
* what `net/http` and `main` guarantee before a handler runs is part of the
  types: the host of a `Request` holds no `/`, and `basedir` is computed as in
  `main` from the flag `-base`.
-/

namespace BlastDav

/-! ## Bytes -/

/-- One byte of a Go string. -/
abbrev Byte := Fin 256

/-- A Go `string` or `[]byte`. -/
abbrev Bytes := List Byte

/-- The bytes of an ASCII string literal of the source. -/
def ascii (s : String) : Bytes := s.toList.map (fun c => Fin.ofNat c.toNat)

/-! ## Substrings -/

/-- Go `strings.HasPrefix(s, p)`. -/
def startsWith : Bytes → Bytes → Bool
  | _, [] => true
  | [], _ :: _ => false
  | b :: s, a :: p => a = b && startsWith s p

/-- Go `strings.Contains(s, p)`: `p` occurs in `s` as a contiguous run of bytes. -/
def containsBytes : Bytes → Bytes → Bool
  | [], p => startsWith [] p
  | b :: s, p => startsWith (b :: s) p || containsBytes s p

/-- The byte string `s` contains `p`: `s` is some bytes, then `p`, then some bytes. -/
def Contains (s p : Bytes) : Prop := ∃ a b : Bytes, s = a ++ p ++ b

/-- At some position that both have, `p` and `s` hold different bytes. -/
def clash : Bytes → Bytes → Bool
  | a :: p, b :: s => decide (a ≠ b) || clash p s
  | _, _ => false

/-- No non-empty tail of `x` can be the start of an occurrence of `p`, whatever
follows `x`: every such tail clashes with `p`. -/
def noStart (p : Bytes) : Bytes → Bool
  | [] => true
  | t :: x => clash p (t :: x) && noStart p x

/-! ## `net/url`: query escaping -/

/-- The byte of an ASCII character literal of the source. -/
def ch (c : Char) : Byte := Fin.ofNat c.toNat

/-- Go `shouldEscape(c, encodeQueryComponent)`: letters, digits and the marks
`-`, `_`, `.`, `~` are kept, every other byte is escaped. -/
def shouldEscape (c : Byte) : Bool :=
  if (ch 'a' ≤ c ∧ c ≤ ch 'z') ∨ (ch 'A' ≤ c ∧ c ≤ ch 'Z') ∨ (ch '0' ≤ c ∧ c ≤ ch '9') then false
  else if c = ch '-' ∨ c = ch '_' ∨ c = ch '.' ∨ c = ch '~' then false
  else true

/-- Go `upperhex[n]` with `const upperhex = "0123456789ABCDEF"`. -/
def upperhex (n : Nat) : Byte := (ascii "0123456789ABCDEF").getD n 0

/-- Go `url.QueryEscape`: a space becomes `+`, a byte that `shouldEscape` becomes
`%XX`, any other byte is copied. -/
def QueryEscape : Bytes → Bytes
  | [] => []
  | c :: s =>
    if c = ch ' ' then ch '+' :: QueryEscape s
    else if shouldEscape c then
      ch '%' :: upperhex (c.val >>> 4) :: upperhex (c.val &&& 15) :: QueryEscape s
    else c :: QueryEscape s

/-- Go `ishex`. -/
def ishex (c : Byte) : Bool :=
  (ch '0' ≤ c ∧ c ≤ ch '9') ∨ (ch 'a' ≤ c ∧ c ≤ ch 'f') ∨ (ch 'A' ≤ c ∧ c ≤ ch 'F')

/-- Go `unhex`. -/
def unhex (c : Byte) : Nat :=
  if ch '0' ≤ c ∧ c ≤ ch '9' then c.val - 48
  else if ch 'a' ≤ c ∧ c ≤ ch 'f' then c.val - 97 + 10
  else if ch 'A' ≤ c ∧ c ≤ ch 'F' then c.val - 65 + 10
  else 0

/-- Go `url.QueryUnescape`: `%XY` becomes the byte `unhex(X)<<4 | unhex(Y)`, `+`
becomes a space; `none` is the `EscapeError` for a `%` not followed by two hex
digits. -/
def QueryUnescape : Bytes → Option Bytes
  | [] => some []
  | c :: s =>
    if c = ch '%' then
      match s with
      | a :: b :: rest =>
        if ishex a && ishex b then
          (QueryUnescape rest).map (fun t => Fin.ofNat ((unhex a <<< 4) ||| unhex b) :: t)
        else none
      | _ => none
    else if c = ch '+' then (QueryUnescape s).map (fun t => ch ' ' :: t)
    else (QueryUnescape s).map (fun t => c :: t)

/-- The decoder the specification describes for hrefs, in its words: each `%XX`
is replaced by its byte and every other character is kept. -/
def specPercentDecode : Bytes → Bytes
  | [] => []
  | c :: s =>
    let kept := c :: specPercentDecode s
    if c = ch '%' then
      match s with
      | a :: b :: rest =>
        if ishex a && ishex b then
          Fin.ofNat ((unhex a <<< 4) ||| unhex b) :: specPercentDecode rest
        else kept
      | _ => kept
    else kept

/-! ## `strconv`, `path/filepath` and string conversion -/

/-- Decimal digits of `n`, most significant first, in front of `acc`. -/
def formatNatAux : Nat → Nat → Bytes → Bytes
  | 0, _, acc => acc
  | fuel + 1, n, acc =>
    if n < 10 then Fin.ofNat (48 + n) :: acc
    else formatNatAux fuel (n / 10) (Fin.ofNat (48 + n % 10) :: acc)

/-- Go `strconv.FormatInt(i, 10)`. -/
def FormatInt (i : Int) : Bytes :=
  if i < 0 then ch '-' :: formatNatAux (i.natAbs + 1) i.natAbs []
  else formatNatAux (i.natAbs + 1) i.natAbs []

/-- The loop of Go `filepath.Ext`, run over the reversed path: stop at a path
separator, return from the last dot on. -/
def extLoop : Bytes → Bytes → Bytes
  | [], _ => []
  | c :: r, acc =>
    if c = ch '/' then [] else if c = ch '.' then c :: acc else extLoop r (c :: acc)

/-- Go `filepath.Ext`. -/
def Ext (path : Bytes) : Bytes := extLoop path.reverse []

/-- The elements of a path between its separators `/`. -/
def splitSlash : Bytes → List Bytes
  | [] => [[]]
  | c :: s =>
    if c = ch '/' then [] :: splitSlash s
    else
      match splitSlash s with
      | [] => [[c]]
      | e :: es => (c :: e) :: es

/-- The elements `filepath.Clean` keeps, the last one first in `out`: an empty
element and `.` are dropped; `..` removes the element before it when there is
one that is not `..`, is dropped at the root, and is kept otherwise. -/
def cleanElems (rooted : Bool) : List Bytes → List Bytes → List Bytes
  | out, [] => out.reverse
  | out, e :: es =>
    if e = [] ∨ e = ascii "." then cleanElems rooted out es
    else if e = ascii ".." then
      match out with
      | top :: below =>
        if top = ascii ".." then cleanElems rooted (e :: out) es
        else cleanElems rooted below es
      | [] => if rooted then cleanElems rooted [] es else cleanElems rooted [e] es
    else cleanElems rooted (e :: out) es

/-- Elements joined by `/`. -/
def joinSlash : List Bytes → Bytes
  | [] => []
  | [e] => e
  | e :: es => e ++ ch '/' :: joinSlash es

/-- Go `filepath.Clean` on Unix: the shortest path equivalent to `path` by purely
lexical processing; a rooted path stays rooted, the empty result is `.`. -/
def Clean (path : Bytes) : Bytes :=
  if path.head? = some (ch '/') then
    ch '/' :: joinSlash (cleanElems true [] (splitSlash path))
  else if cleanElems false [] (splitSlash path) = [] then ascii "."
  else joinSlash (cleanElems false [] (splitSlash path))

/-- Go `filepath.IsAbs` on Unix: `strings.HasPrefix(path, "/")`. -/
def IsAbs (path : Bytes) : Bool := path.head? = some (ch '/')

/-- Go `filepath.Join(a, b)`: the non-empty elements joined by `/`, cleaned. -/
def Join (a b : Bytes) : Bytes :=
  if a ≠ [] then Clean (a ++ ascii "/" ++ b) else if b ≠ [] then Clean b else []

/-- Go `filepath.Abs` on Unix: an absolute path is cleaned; any other path is
joined to the working directory, and the error of `os.Getwd` (`getwd = none`) is
returned as `none`. -/
def Abs (getwd : Option Bytes) (path : Bytes) : Option Bytes :=
  if IsAbs path then some (Clean path)
  else
    match getwd with
    | none => none
    | some wd => some (Join wd path)

/-- Go conversion `string(i)` of an integer: the UTF-8 encoding of the code point
`i`, or of U+FFFD when `i` is not a valid code point. -/
def intToString (i : Nat) : Bytes :=
  if i < 0x80 then [Fin.ofNat i]
  else if i < 0x800 then [Fin.ofNat (0xC0 ||| (i >>> 6)), Fin.ofNat (0x80 ||| (i &&& 0x3F))]
  else if (0xD800 ≤ i ∧ i ≤ 0xDFFF) ∨ 0x10FFFF < i then [0xEF, 0xBF, 0xBD]
  else if i < 0x10000 then
    [Fin.ofNat (0xE0 ||| (i >>> 12)), Fin.ofNat (0x80 ||| ((i >>> 6) &&& 0x3F)),
     Fin.ofNat (0x80 ||| (i &&& 0x3F))]
  else
    [Fin.ofNat (0xF0 ||| (i >>> 18)), Fin.ofNat (0x80 ||| ((i >>> 12) &&& 0x3F)),
     Fin.ofNat (0x80 ||| ((i >>> 6) &&& 0x3F)), Fin.ofNat (0x80 ||| (i &&& 0x3F))]

/-! ## The cache worker -/

/-- Go `type cacheEntry struct`. -/
structure cacheEntry where
  timeadded : Int
  requestpath : Bytes
  data : Bytes
deriving DecidableEq

/-- Go `map[string][]byte`: a lookup function, `none` for a key that is absent. -/
abbrev GoMap := Bytes → Option Bytes

/-- Go `make(map[string][]byte)`. -/
def GoMap.empty : GoMap := fun _ => none

/-- Go `m[k] = v`. -/
def GoMap.set (m : GoMap) (k v : Bytes) : GoMap := fun q => if q = k then some v else m q

/-- Go `delete(m, k)`. -/
def GoMap.delete (m : GoMap) (k : Bytes) : GoMap := fun q => if q = k then none else m q

/-- The state the worker owns: the global `cachemap` and its local list
`cacheditems` (front of the list first). -/
structure CacheState where
  cachemap : GoMap
  cacheditems : List cacheEntry

/-- State of `cachemanager` before its loop: `list.New()` and an empty map. -/
def CacheState.init : CacheState := ⟨GoMap.empty, []⟩

/-- The pruning loop `for done := false; !done; { ... }` of `cachemanager`.
`clock i` is the value of `time.Now().Unix()` read in iteration `i` of the loop. -/
def pruneLoop (dircache : Int) (clock : Nat → Int) : Nat → GoMap → List cacheEntry → CacheState
  | _, m, [] => ⟨m, []⟩
  | i, m, checkentry :: rest =>
    if clock i - checkentry.timeadded > dircache then
      pruneLoop dircache clock (i + 1) (m.delete checkentry.requestpath) rest
    else ⟨m, checkentry :: rest⟩

/-- One turn of the `for` loop of `cachemanager`: the worker has received
`newentry` from the channel `cachewrite`. -/
def cachemanagerStep (dircache : Int) (clock : Nat → Int) (s : CacheState)
    (newentry : cacheEntry) : CacheState :=
  if newentry.timeadded > 0 then
    if (s.cachemap newentry.requestpath).isSome then s
    else ⟨s.cachemap.set newentry.requestpath newentry.data, s.cacheditems ++ [newentry]⟩
  else pruneLoop dircache clock 0 s.cachemap s.cacheditems

/-- The worker `cachemanager` after it has received the messages `msgs` in this
order, each paired with the clock readings taken while it was processed. -/
def cachemanager (dircache : Int) (msgs : List (cacheEntry × (Nat → Int))) : CacheState :=
  msgs.foldl (fun s m => cachemanagerStep dircache m.2 s m.1) CacheState.init

/-- The message `cacheprunesignal` sends every second: a zero `cacheEntry`. -/
def pruneSignal : cacheEntry := ⟨0, [], []⟩

/-- Keys held in the insertion-ordered sequence. -/
def CacheState.keys (s : CacheState) : List Bytes := s.cacheditems.map (fun e => e.requestpath)

/-- Timestamps of the messages the worker treats as inserts, in processing order. -/
def insertTimes (msgs : List (cacheEntry × (Nat → Int))) : List Int :=
  (msgs.filter (fun m => 0 < m.1.timeadded)).map (fun m => m.1.timeadded)

/-- The two halves of the store agree: distinct keys in the sequence, and the
same keys in the mapping. -/
def CacheState.Consistent (s : CacheState) : Prop :=
  s.keys.Nodup ∧ ∀ k, k ∈ s.keys ↔ (s.cachemap k).isSome

/-! ## `net/http`: the response writer -/

/-- Go `validHeaderFieldByte`: the bytes of an HTTP token. -/
def validHeaderFieldByte (c : Byte) : Bool :=
  (ch 'a' ≤ c ∧ c ≤ ch 'z') ∨ (ch 'A' ≤ c ∧ c ≤ ch 'Z') ∨ (ch '0' ≤ c ∧ c ≤ ch '9') ∨
    c ∈ ascii "!#$%&'*+-.^_`|~"

/-- The second loop of Go `canonicalMIMEHeaderKey`: upper case for the first
letter and for a letter after `-`, lower case for the other letters. -/
def canonLoop : Bool → Bytes → Bytes
  | _, [] => []
  | upper, c :: s =>
    if upper ∧ ch 'a' ≤ c ∧ c ≤ ch 'z' then
      Fin.ofNat (c.val - 32) :: canonLoop false s
    else if ¬ upper ∧ ch 'A' ≤ c ∧ c ≤ ch 'Z' then
      Fin.ofNat (c.val + 32) :: canonLoop false s
    else c :: canonLoop (c = ch '-') s

/-- Go `textproto.CanonicalMIMEHeaderKey`: a key with a byte that is no token
byte is returned as it is. -/
def CanonicalMIMEHeaderKey (key : Bytes) : Bytes :=
  if key.all validHeaderFieldByte then canonLoop true key else key

/-- Value of a header in a header list. -/
def headerGet (h : List (Bytes × Bytes)) (key : Bytes) : Option Bytes :=
  (h.find? (fun kv => kv.1 = key)).map (fun kv => kv.2)

/-- What a handler has done to its `http.ResponseWriter`.  `isHEAD` tells whether
the request is a HEAD request.  `header` is the map `Header()` returns;
`sentHeader` holds, of the headers that go on the wire, the copy of `header`
fixed when the status line is written (a later change of `header` has no
effect) and the `Content-Length` the server adds itself. -/
structure ResponseWriter where
  isHEAD : Bool
  wroteHeader : Bool
  status : Nat
  header : List (Bytes × Bytes)
  sentHeader : List (Bytes × Bytes)
  body : Bytes

/-- The writer a handler is called with. -/
def ResponseWriter.new (isHEAD : Bool) : ResponseWriter := ⟨isHEAD, false, 0, [], [], []⟩

/-- Go `w.WriteHeader(code)`; a second call is ignored. -/
def ResponseWriter.WriteHeader (w : ResponseWriter) (code : Nat) : ResponseWriter :=
  if w.wroteHeader then w
  else { w with wroteHeader := true, status := code, sentHeader := w.header }

/-- Go `w.Write(data)`: writes status 200 first when no status was written; the
data of a HEAD request is dropped. -/
def ResponseWriter.Write (w : ResponseWriter) (data : Bytes) : ResponseWriter :=
  let w1 := w.WriteHeader 200
  if w1.isHEAD then w1 else { w1 with body := w1.body ++ data }

/-- Go `w.Header().Set(key, value)`: the key is stored in its canonical form. -/
def ResponseWriter.HeaderSet (w : ResponseWriter) (key value : Bytes) : ResponseWriter :=
  { w with header := (CanonicalMIMEHeaderKey key, value)
      :: w.header.filter (fun kv => kv.1 ≠ CanonicalMIMEHeaderKey key) }

/-- Go `bytes.NewBuffer(data).WriteTo(w)`: one `Write` of the whole buffer, and no
call at all for an empty buffer. -/
def WriteTo (data : Bytes) (w : ResponseWriter) : ResponseWriter :=
  if 0 < data.length then w.Write data else w

/-- Go `bodyAllowedForStatus`. -/
def bodyAllowedForStatus (status : Nat) : Bool :=
  if 100 ≤ status ∧ status ≤ 199 then false
  else if status = 204 then false
  else if status = 304 then false
  else true

/-- The server after the handler has returned.  A handler that wrote no status
gets `200 OK`.  A body that fits the 2048 bytes the server buffers before it
switches to chunked encoding is sent with a `Content-Length` the server adds in
decimal, when the sent headers hold none, the status allows a body, and the
request is not a HEAD request without a body. -/
def ResponseWriter.finish (w : ResponseWriter) : ResponseWriter :=
  let w1 := w.WriteHeader 200
  if w1.body.length ≤ 2048 ∧ bodyAllowedForStatus w1.status = true ∧
      headerGet w1.sentHeader (ascii "Content-Length") = none ∧
      (w1.isHEAD = false ∨ 0 < w1.body.length) then
    { w1 with sentHeader := w1.sentHeader ++ [(ascii "Content-Length", FormatInt w1.body.length)] }
  else w1

/-! ## Requests, the file system and the handlers -/

/-- The fields of `*http.Request` the handlers read. `depth` is the `Depth`
header when the request has one.  `host` is `r.Host` as `net/http` hands it to a
handler: a `Host` header it has checked byte by byte (`ValidHostHeader`), or the
authority of an absolute request URL, which ends before the first `/`; in both
cases it holds no `/`. -/
structure Request where
  method : Bytes
  path : Bytes
  host : Bytes
  depth : Option Bytes
  host_no_slash : ch '/' ∉ host

/-- Go `os.FileInfo` of one directory entry, as far as `propfind` reads it. -/
structure FileInfo where
  name : Bytes
  size : Int
  modTime : Int
  isDir : Bool
deriving DecidableEq

/-- The process configuration and the world outside the program: the flags
`-base` and `-debug`, the working directory, the clock, the file system and the
library functions whose results the handlers only copy.  `getwd` is the result of
`os.Getwd`, `none` for an error, and an absolute path otherwise.  `osOpen` returns
a file handle, `none` for an error.  `formatRFC3339` and `formatRFC1123` are
`Time.Format` with these layouts, which writes digits, letters and the marks of
the layout, and no `<`.  `typeByExtension` is `mime.TypeByExtension` over the
MIME tables of the system: media types without a `<`, none of them
`httpd/unix-directory`. -/
structure Env where
  base : Bytes
  debug : Bool
  getwd : Option Bytes
  now : Int
  osOpen : Bytes → Option Nat
  readdir : Nat → Option (List FileInfo)
  formatRFC3339 : Int → Bytes
  formatRFC1123 : Int → Bytes
  typeByExtension : Bytes → Bytes
  runeCountInString : Bytes → Nat
  serveContent : ResponseWriter → Request → Nat → ResponseWriter
  getwd_abs : ∀ wd, getwd = some wd → IsAbs wd = true
  rfc3339_plain : ∀ t, ch '<' ∉ formatRFC3339 t
  rfc1123_plain : ∀ t, ch '<' ∉ formatRFC1123 t
  mime_plain : ∀ e, ch '<' ∉ typeByExtension e
  mime_no_directory : ∀ e, typeByExtension e ≠ ascii "httpd/unix-directory"

/-- The global `basedir` as `main` leaves it: `basedir, _ = filepath.Abs(basedir)`
and then `basedir = basedir + string(os.PathSeparator)`. -/
def Env.basedir (env : Env) : Bytes := (Abs env.getwd env.base).getD [] ++ ascii "/"

/-- A call a handler made to the file system. -/
inductive FsOp where
  | osOpen (name : Bytes)
  | readdir (file : Nat)
deriving DecidableEq

/-- What a handler did: its writer, its file system calls in order, and the
entries it sent on the channel `cachewrite`. -/
structure Run where
  w : ResponseWriter
  fsops : List FsOp
  sent : List cacheEntry

/-- A value passed to `panic`: a `sendHTTPStatus`, or a Go run-time error. -/
inductive PanicValue where
  | sendHTTPStatus (stat : Nat)
  | runtimeError
deriving DecidableEq

/-- A handler after its deferred `senderr`: `repanicked` when `senderr` panicked
again (a run-time error in debug mode). -/
structure Outcome where
  run : Run
  repanicked : Bool

/-- Status line the client receives. -/
def Outcome.status (o : Outcome) : Nat := o.run.w.finish.status

/-- Body the client receives. -/
def Outcome.body (o : Outcome) : Bytes := o.run.w.body

/-- Go `senderr`, deferred: a `sendHTTPStatus` panic is written as the status; any
other panic is raised again in debug mode and dropped otherwise. -/
def senderr (debug : Bool) (res : Run × Option PanicValue) : Outcome :=
  match res.2 with
  | some (PanicValue.sendHTTPStatus stat) =>
    ⟨{ res.1 with w := res.1.w.WriteHeader stat }, false⟩
  | some PanicValue.runtimeError => ⟨res.1, debug⟩
  | none => ⟨res.1, false⟩

/-- First write of `propfind` into its buffer. -/
def preamble : Bytes :=
  ascii "<?xml version=\"1.0\" encoding=\"utf-8\"?>\n<D:multistatus xmlns:D=\"DAV:\" xmlns:ns0=\"urn:uuid:c2f41010-65b3-11d1-a29f-00aa00c14882/\">\n"

/-- Last write of `propfind` into its buffer: the closing tag, a newline and a tab. -/
def closing : Bytes := ascii "</D:multistatus>\n\t"

/-- The `<D:response>` block `propfind` writes for an entry with `!fi.IsDir()`. -/
def fileResponse (env : Env) (rhostname requestpath : Bytes) (fi : FileInfo) : Bytes :=
  ascii "<D:response>\n<D:href>http://" ++ rhostname ++ ascii "/" ++ QueryEscape requestpath
    ++ ascii "/" ++ QueryEscape fi.name
    ++ ascii "</D:href>\n<D:propstat>\n<D:prop>\n<D:creationdate ns0:dt=\"dateTime.tz\">"
    ++ env.formatRFC3339 fi.modTime
    ++ ascii "</D:creationdate><D:getcontentlanguage>en</D:getcontentlanguage><D:getcontentlength>"
    ++ FormatInt fi.size
    ++ ascii "</D:getcontentlength><D:getcontenttype>"
    ++ env.typeByExtension (Ext fi.name)
    ++ ascii "</D:getcontenttype><D:getlastmodified ns0:dt=\"dateTime.rfc1123\">"
    ++ env.formatRFC1123 fi.modTime
    ++ ascii "</D:getlastmodified></D:prop>\n<D:status>HTTP/1.1 200 OK</D:status>\n</D:propstat>\n</D:response>\n"

/-- The variable `tempurl` of `propfind` for a directory entry. -/
def tempurl (rhostname requestpath fname : Bytes) : Bytes :=
  if QueryEscape requestpath ≠ [] then
    ascii "http://" ++ rhostname ++ ascii "/" ++ QueryEscape requestpath ++ ascii "/"
      ++ QueryEscape fname ++ ascii "/"
  else ascii "http://" ++ rhostname ++ ascii "/" ++ QueryEscape fname ++ ascii "/"

/-- The `<D:response>` block `propfind` writes for an entry with `fi.IsDir()`. -/
def dirResponse (env : Env) (rhostname requestpath : Bytes) (fi : FileInfo) : Bytes :=
  ascii "<D:response>\n<D:href>" ++ tempurl rhostname requestpath fi.name
    ++ ascii "</D:href>\n<D:propstat>\n<D:prop>\n<D:creationdate ns0:dt=\"dateTime.tz\">"
    ++ env.formatRFC3339 fi.modTime
    ++ ascii "</D:creationdate><D:getcontentlanguage>en</D:getcontentlanguage><D:getcontentlength>"
    ++ FormatInt (env.runeCountInString (tempurl rhostname requestpath fi.name))
    ++ ascii "</D:getcontentlength><D:getcontenttype>httpd/unix-directory</D:getcontenttype><D:getlastmodified ns0:dt=\"dateTime.rfc1123\">"
    ++ env.formatRFC1123 fi.modTime
    ++ ascii "</D:getlastmodified><D:resourcetype><D:collection/></D:resourcetype></D:prop>\n<D:status>HTTP/1.1 200 OK</D:status>\n</D:propstat>\n</D:response>\n"

/-- Body of the loop `for _, fi := range fi` of `propfind`: the block written for
one entry. -/
def entryResponse (env : Env) (rhostname requestpath : Bytes) (fi : FileInfo) : Bytes :=
  if !fi.isDir then fileResponse env rhostname requestpath fi
  else dirResponse env rhostname requestpath fi

/-- The buffer `buf` of `propfind` after its last write. -/
def listing (env : Env) (rhostname requestpath : Bytes) (fis : List FileInfo) : Bytes :=
  fis.foldl (fun buf fi => buf ++ entryResponse env rhostname requestpath fi) preamble ++ closing

/-- The statement `if len(requestpath) > 0 && requestpath[len(requestpath)-1] == '/'`
of `propfind`: one trailing `/` is cut off. -/
def stripSlash (p : Bytes) : Bytes :=
  if 0 < p.length ∧ p.getLast? = some (ch '/') then p.dropLast else p

/-- Body of Go `propfind`, before the deferred `senderr` runs.  `cachemap` is the
global map as the handler reads it. -/
def propfindBody (env : Env) (cachemap : GoMap) (r : Request) (w : ResponseWriter) :
    Run × Option PanicValue :=
  let urlPath := (QueryUnescape r.path).getD []
  let depth := r.depth.getD []
  if depth = ascii "0" ∨ depth = ascii "1" then
    match urlPath with
    | [] => (⟨w, [], []⟩, some PanicValue.runtimeError)
    | _ :: tl =>
      let requestpath := stripSlash tl
      match cachemap (requestpath ++ ascii "/") with
      | some data => (⟨WriteTo data w, [], []⟩, none)
      | none =>
        match Abs env.getwd (Clean (env.basedir ++ requestpath)) with
        | none => (⟨w, [], []⟩, some (PanicValue.sendHTTPStatus 400))
        | some dirname =>
          match env.osOpen dirname with
          | none => (⟨w, [FsOp.osOpen dirname], []⟩, some (PanicValue.sendHTTPStatus 404))
          | some d =>
            match env.readdir d with
            | none =>
              (⟨w, [FsOp.osOpen dirname, FsOp.readdir d], []⟩,
                some (PanicValue.sendHTTPStatus 404))
            | some fi =>
              let buf := listing env r.host requestpath fi
              let w1 := w.WriteHeader 207
              let w2 := w1.HeaderSet (ascii "content-length") (intToString buf.length)
              let newcacheentry : cacheEntry := ⟨env.now, requestpath ++ ascii "/", buf⟩
              (⟨WriteTo buf w2, [FsOp.osOpen dirname, FsOp.readdir d], [newcacheentry]⟩, none)
  else if depth = ascii "" ∨ depth = ascii "infinity" then
    (⟨w, [], []⟩, some (PanicValue.sendHTTPStatus 403))
  else (⟨w, [], []⟩, some (PanicValue.sendHTTPStatus 400))

/-- Go `propfind`. -/
def propfind (env : Env) (cachemap : GoMap) (r : Request) (w : ResponseWriter) : Outcome :=
  senderr env.debug (propfindBody env cachemap r w)

/-- Body of Go `headget`, before the deferred `senderr` runs. -/
def headgetBody (env : Env) (r : Request) (w : ResponseWriter) : Run × Option PanicValue :=
  match (QueryUnescape r.path).getD [] with
  | [] => (⟨w, [], []⟩, some PanicValue.runtimeError)
  | _ :: requestpath =>
    match Abs env.getwd (Clean (env.basedir ++ requestpath)) with
    | none => (⟨w, [], []⟩, some (PanicValue.sendHTTPStatus 404))
    | some filename =>
      match env.osOpen filename with
      | none => (⟨w, [FsOp.osOpen filename], []⟩, some (PanicValue.sendHTTPStatus 404))
      | some file => (⟨env.serveContent w r file, [FsOp.osOpen filename], []⟩, none)

/-- Go `headget`. -/
def headget (env : Env) (r : Request) (w : ResponseWriter) : Outcome :=
  senderr env.debug (headgetBody env r w)

/-- Go `webdav`, the handler registered for every path. -/
def webdav (env : Env) (cachemap : GoMap) (r : Request) : Outcome :=
  if r.method = ascii "HEAD" ∨ r.method = ascii "GET" then
    headget env r (ResponseWriter.new (r.method = ascii "HEAD"))
  else if r.method = ascii "PROPFIND" then propfind env cachemap r (ResponseWriter.new false)
  else ⟨⟨(ResponseWriter.new false).WriteHeader 400, [], []⟩, false⟩

set_option maxRecDepth 100000

/-! ## Example inputs -/

/-- An example environment: the flag `-base /srv`, one directory `/srv/music`
with four files and one sub-directory, nothing else on disk. -/
def exampleEnv : Env where
  base := ascii "/srv"
  debug := false
  getwd := some (ascii "/root")
  now := 1355560260
  osOpen := fun p => if p = ascii "/srv/music" then some 3 else none
  readdir := fun f =>
    if f = 3 then
      some [⟨ascii "a b.txt", 12, 1355560260, false⟩, ⟨ascii "live", 4096, 1355560260, true⟩,
        ⟨ascii "01.mp3", 4212345, 1355560260, false⟩, ⟨ascii "02.mp3", 3912345, 1355560260, false⟩,
        ⟨ascii "cover.jpg", 51234, 1355560260, false⟩]
    else none
  formatRFC3339 := fun _ => ascii "2012-12-15T08:31:00Z"
  formatRFC1123 := fun _ => ascii "Sat, 15 Dec 2012 08:31:00 GMT"
  typeByExtension := fun e =>
    if e = ascii ".txt" then ascii "text/plain; charset=utf-8"
    else if e = ascii ".mp3" then ascii "audio/mpeg"
    else if e = ascii ".jpg" then ascii "image/jpeg"
    else []
  runeCountInString := fun s => s.length
  serveContent := fun w _ _ => w.Write []
  getwd_abs := by
    intro wd h
    cases h
    decide!
  rfc3339_plain := by
    intro _
    beta_reduce
    decide!
  rfc1123_plain := by
    intro _
    beta_reduce
    decide!
  mime_plain := by
    intro e
    dsimp only
    split_ifs
    · decide!
    · decide!
    · decide!
    · decide!
  mime_no_directory := by
    intro e
    dsimp only
    split_ifs
    · decide!
    · decide!
    · decide!
    · decide!

/-- An example request: `PROPFIND /music/` with `Depth: 1`. -/
def exampleRequest : Request :=
  ⟨ascii "PROPFIND", ascii "/music/", ascii "nas:8080", some (ascii "1"), by decide!⟩

/-- The cache map after the worker has stored what the example request sent it on
an empty cache. -/
def exampleCache : GoMap :=
  (cachemanager 300 ((webdav exampleEnv GoMap.empty exampleRequest).run.sent.map
    (fun e => (e, fun _ => e.timeadded)))).cachemap

/-- An example request for a directory that does not exist. -/
def exampleRequestMissing : Request :=
  ⟨ascii "PROPFIND", ascii "/nothere", ascii "nas:8080", some (ascii "1"), by decide!⟩

/-! ### Lemmas on the worker -/

theorem pruneLoop_consistent (dircache : Int) (clock : Nat → Int) :
    ∀ (items : List cacheEntry) (i : Nat) (m : GoMap),
      (CacheState.mk m items).Consistent → (pruneLoop dircache clock i m items).Consistent := by
  intro items
  induction items with
  | nil => intro i m h; simpa [pruneLoop] using h
  | cons e rest ih =>
    intro i m h
    unfold pruneLoop
    split
    · apply ih
      obtain ⟨hnd, hk⟩ := h
      simp only [CacheState.keys, List.map_cons, List.nodup_cons, List.mem_cons] at hnd hk
      refine ⟨hnd.2, fun k => ?_⟩
      simp only [CacheState.keys, GoMap.delete]
      by_cases hke : k = e.requestpath
      · subst hke
        simp only [if_true, Option.isSome_none]
        constructor
        · intro hmem; exact absurd hmem hnd.1
        · intro hf; cases hf
      · simp only [hke, if_false]
        rw [← hk k]
        simp [hke]
    · exact h

theorem cachemanagerStep_consistent (dircache : Int) (clock : Nat → Int) (s : CacheState)
    (e : cacheEntry) (h : s.Consistent) : (cachemanagerStep dircache clock s e).Consistent := by
  unfold cachemanagerStep
  split
  · split
    · exact h
    · rename_i hnew
      obtain ⟨hnd, hk⟩ := h
      have hnotin : e.requestpath ∉ s.keys := fun hin => hnew ((hk _).1 hin)
      refine ⟨?_, fun k => ?_⟩
      · simp only [CacheState.keys, List.map_append, List.map_cons, List.map_nil]
        rw [List.nodup_append]
        refine ⟨hnd, List.nodup_singleton _, ?_⟩
        intro a ha hb
        simp only [List.mem_singleton] at hb
        subst hb
        exact hnotin ha
      · simp only [CacheState.keys, List.map_append, List.map_cons, List.map_nil,
          List.mem_append, List.mem_singleton, GoMap.set]
        by_cases hke : k = e.requestpath
        · simp [hke]
        · simp only [hke, or_false, if_false]
          exact hk k
  · exact pruneLoop_consistent dircache clock s.cacheditems 0 s.cachemap h

theorem init_consistent : CacheState.init.Consistent := by
  refine ⟨by simp [CacheState.init, CacheState.keys], fun k => ?_⟩
  simp [CacheState.init, CacheState.keys, GoMap.empty]

theorem cachemanager_snoc (dircache : Int) (msgs : List (cacheEntry × (Nat → Int)))
    (m : cacheEntry × (Nat → Int)) :
    cachemanager dircache (msgs ++ [m])
      = cachemanagerStep dircache m.2 (cachemanager dircache msgs) m.1 := by
  simp [cachemanager, List.foldl_append]

theorem cachemanager_consistent (dircache : Int) (msgs : List (cacheEntry × (Nat → Int))) :
    (cachemanager dircache msgs).Consistent := by
  induction msgs using List.reverseRecOn with
  | nil => exact init_consistent
  | append_singleton msgs m ih =>
    rw [cachemanager_snoc]
    exact cachemanagerStep_consistent dircache m.2 _ m.1 ih


/-! ### The prune pass with a fixed clock reading -/

theorem pruneLoop_none (dircache : Int) (clock : Nat → Int) (k : Bytes) :
    ∀ (items : List cacheEntry) (i : Nat) (m : GoMap),
      m k = none → (pruneLoop dircache clock i m items).cachemap k = none := by
  intro items
  induction items with
  | nil => intro i m h; simpa [pruneLoop] using h
  | cons e rest ih =>
    intro i m h
    unfold pruneLoop
    split
    · apply ih
      simp [GoMap.delete, h]
    · exact h

theorem pruneLoop_fresh (dircache now : Int) :
    ∀ (items : List cacheEntry) (i : Nat) (m : GoMap),
      (items.map (fun e => e.timeadded)).Pairwise (fun a b => a ≤ b) →
      ∀ e ∈ (pruneLoop dircache (fun _ => now) i m items).cacheditems,
        now - e.timeadded ≤ dircache := by
  intro items
  induction items with
  | nil => intro i m _ e he; simp [pruneLoop] at he
  | cons x rest ih =>
    intro i m hs e he
    simp only [List.map_cons, List.pairwise_cons] at hs
    unfold pruneLoop at he
    split at he
    · exact ih (i + 1) _ hs.2 e he
    · rename_i hx
      simp only [List.mem_cons] at he
      rcases he with rfl | he
      · omega
      · have := hs.1 e.timeadded (List.mem_map_of_mem _ he)
        omega

theorem pruneLoop_expired (dircache now : Int) :
    ∀ (items : List cacheEntry) (i : Nat) (m : GoMap),
      (items.map (fun e => e.timeadded)).Pairwise (fun a b => a ≤ b) →
      ∀ e ∈ items, now - e.timeadded > dircache →
        (pruneLoop dircache (fun _ => now) i m items).cachemap e.requestpath = none := by
  intro items
  induction items with
  | nil => intro i m _ e he; simp at he
  | cons x rest ih =>
    intro i m hs e he hexp
    simp only [List.map_cons, List.pairwise_cons] at hs
    unfold pruneLoop
    split
    · simp only [List.mem_cons] at he
      rcases he with rfl | he
      · apply pruneLoop_none
        simp [GoMap.delete]
      · exact ih (i + 1) _ hs.2 e he hexp
    · rename_i hx
      exfalso
      simp only [List.mem_cons] at he
      rcases he with rfl | he
      · exact hx hexp
      · have := hs.1 e.timeadded (List.mem_map_of_mem _ he)
        omega

theorem pruneLoop_suffix (dircache : Int) (clock : Nat → Int) :
    ∀ (items : List cacheEntry) (i : Nat) (m : GoMap),
      ∃ gone, items = gone ++ (pruneLoop dircache clock i m items).cacheditems := by
  intro items
  induction items with
  | nil => intro i m; exact ⟨[], by simp [pruneLoop]⟩
  | cons x rest ih =>
    intro i m
    unfold pruneLoop
    split
    · obtain ⟨gone, hg⟩ := ih (i + 1) (m.delete x.requestpath)
      exact ⟨x :: gone, by rw [List.cons_append, ← hg]⟩
    · exact ⟨[], rfl⟩

/-- The timestamps in the sequence are a subsequence of the insert timestamps
received so far. -/
theorem cachemanager_times_sublist (dircache : Int) (msgs : List (cacheEntry × (Nat → Int))) :
    List.Sublist ((cachemanager dircache msgs).cacheditems.map (fun e => e.timeadded))
      (insertTimes msgs) := by
  induction msgs using List.reverseRecOn with
  | nil => simp [cachemanager, CacheState.init, insertTimes]
  | append_singleton msgs m ih =>
    rw [cachemanager_snoc]
    unfold cachemanagerStep
    by_cases ht : m.1.timeadded > 0
    · have hins : insertTimes (msgs ++ [m]) = insertTimes msgs ++ [m.1.timeadded] := by
        simp [insertTimes, List.filter_append, List.filter_cons, gt_iff_lt.mp ht]
      rw [if_pos ht, hins]
      split
      · exact ih.trans (List.sublist_append_left _ _)
      · simp only [List.map_append, List.map_cons, List.map_nil]
        exact List.Sublist.append ih (List.Sublist.refl _)
    · have hins : insertTimes (msgs ++ [m]) = insertTimes msgs := by
        have : ¬ 0 < m.1.timeadded := ht
        simp [insertTimes, List.filter_append, List.filter_cons, this]
      rw [if_neg ht, hins]
      obtain ⟨gone, hg⟩ := pruneLoop_suffix dircache m.2 (cachemanager dircache msgs).cacheditems 0
        (cachemanager dircache msgs).cachemap
      refine List.Sublist.trans ?_ ih
      conv_rhs => rw [hg]
      rw [List.map_append]
      exact List.sublist_append_right _ _

theorem cachemanager_sorted (dircache : Int) (msgs : List (cacheEntry × (Nat → Int)))
    (h : (insertTimes msgs).Pairwise (fun a b => a ≤ b)) :
    ((cachemanager dircache msgs).cacheditems.map (fun e => e.timeadded)).Pairwise
      (fun a b => a ≤ b) :=
  List.Pairwise.sublist (cachemanager_times_sublist dircache msgs) h

/-! ### Claims on the cache worker -/

/-- C4. Starting from the empty cache, after every message the worker has
processed (inserts and prune signals, with any clock readings), the keys in the
insertion-ordered sequence are pairwise distinct and are exactly the keys of the
mapping. -/
theorem cache_keys_invariant (dircache : Int) (msgs : List (cacheEntry × (Nat → Int))) :
    (cachemanager dircache msgs).keys.Nodup ∧
      ∀ k, k ∈ (cachemanager dircache msgs).keys ↔ ((cachemanager dircache msgs).cachemap k).isSome :=
  cachemanager_consistent dircache msgs

/-- C3. An insert (timestamp above zero) whose key is already in the mapping is
discarded: the mapping, the payload under that key and the sequence are the same
after the message as before it. -/
theorem insert_existing_key_discarded (dircache : Int) (clock : Nat → Int) (s : CacheState)
    (newentry : cacheEntry) (ht : newentry.timeadded > 0)
    (hk : (s.cachemap newentry.requestpath).isSome) :
    (cachemanagerStep dircache clock s newentry).cachemap = s.cachemap ∧
      (cachemanagerStep dircache clock s newentry).cacheditems = s.cacheditems ∧
      (cachemanagerStep dircache clock s newentry).cachemap newentry.requestpath
        = s.cachemap newentry.requestpath := by
  simp [cachemanagerStep, ht, hk]

/-- Witness for C3: a second insert for the key `music/` leaves the first payload. -/
theorem insert_existing_key_discarded_witness :
    (cachemanagerStep 300 (fun _ => 20) (cachemanager 300 [(⟨10, ascii "music/", ascii "first"⟩, fun _ => 10)])
        ⟨20, ascii "music/", ascii "second"⟩).cachemap
      = (cachemanager 300 [(⟨10, ascii "music/", ascii "first"⟩, fun _ => 10)]).cachemap ∧
    (cachemanagerStep 300 (fun _ => 20) (cachemanager 300 [(⟨10, ascii "music/", ascii "first"⟩, fun _ => 10)])
        ⟨20, ascii "music/", ascii "second"⟩).cacheditems
      = (cachemanager 300 [(⟨10, ascii "music/", ascii "first"⟩, fun _ => 10)]).cacheditems ∧
    (cachemanagerStep 300 (fun _ => 20) (cachemanager 300 [(⟨10, ascii "music/", ascii "first"⟩, fun _ => 10)])
        ⟨20, ascii "music/", ascii "second"⟩).cachemap (ascii "music/")
      = (cachemanager 300 [(⟨10, ascii "music/", ascii "first"⟩, fun _ => 10)]).cachemap (ascii "music/") :=
  insert_existing_key_discarded 300 (fun _ => 20)
    (cachemanager 300 [(⟨10, ascii "music/", ascii "first"⟩, fun _ => 10)])
    ⟨20, ascii "music/", ascii "second"⟩ (by decide) (by decide!)

/-- Counterexample to C2 as stated. With TTL 10 the worker receives an insert
stamped 100, then an insert stamped 50, then a prune signal at clock 105: the
pass stops at the first entry (age 5), and the second entry, of age 55, stays in
the sequence and in the mapping. -/
theorem prune_keeps_expired_entry :
    (⟨50, ascii "b/", ascii "B"⟩ : cacheEntry) ∈
        (cachemanager 10 [(⟨100, ascii "a/", ascii "A"⟩, fun _ => 100),
          (⟨50, ascii "b/", ascii "B"⟩, fun _ => 100), (pruneSignal, fun _ => 105)]).cacheditems ∧
      (cachemanager 10 [(⟨100, ascii "a/", ascii "A"⟩, fun _ => 100),
          (⟨50, ascii "b/", ascii "B"⟩, fun _ => 100), (pruneSignal, fun _ => 105)]).cachemap
        (ascii "b/") = some (ascii "B") ∧
      (105 : Int) - 50 > 10 := by
  decide!

/-- C2, amended. When the insert timestamps the worker receives are non-decreasing
in processing order, then after a prune signal processed at clock time `now` no
entry older than the TTL remains: every entry left in the sequence is within the
TTL, every entry of the sequence that was older is out of the mapping, and every
key left in the mapping belongs to an entry of the sequence within the TTL. -/
theorem prune_removes_expired_when_ordered (dircache now : Int)
    (msgs : List (cacheEntry × (Nat → Int)))
    (hord : (insertTimes msgs).Pairwise (fun a b => a ≤ b)) :
    (∀ e ∈ (cachemanager dircache (msgs ++ [(pruneSignal, fun _ => now)])).cacheditems,
        now - e.timeadded ≤ dircache) ∧
    (∀ e ∈ (cachemanager dircache msgs).cacheditems, now - e.timeadded > dircache →
        e ∉ (cachemanager dircache (msgs ++ [(pruneSignal, fun _ => now)])).cacheditems ∧
        (cachemanager dircache (msgs ++ [(pruneSignal, fun _ => now)])).cachemap e.requestpath
          = none) ∧
    (∀ k, ((cachemanager dircache (msgs ++ [(pruneSignal, fun _ => now)])).cachemap k).isSome →
        ∃ e ∈ (cachemanager dircache (msgs ++ [(pruneSignal, fun _ => now)])).cacheditems,
          e.requestpath = k ∧ now - e.timeadded ≤ dircache) := by
  have hsorted := cachemanager_sorted dircache msgs hord
  have hstep : cachemanager dircache (msgs ++ [(pruneSignal, fun _ => now)])
      = pruneLoop dircache (fun _ => now) 0 (cachemanager dircache msgs).cachemap
          (cachemanager dircache msgs).cacheditems := by
    rw [cachemanager_snoc]
    simp [cachemanagerStep, pruneSignal]
  have hfresh := pruneLoop_fresh dircache now (cachemanager dircache msgs).cacheditems 0
    (cachemanager dircache msgs).cachemap hsorted
  rw [← hstep] at hfresh
  refine ⟨hfresh, ?_, ?_⟩
  · intro e he hexp
    refine ⟨fun hin => ?_, ?_⟩
    · have := hfresh e hin
      omega
    · rw [hstep]
      exact pruneLoop_expired dircache now _ 0 _ hsorted e he hexp
  · intro k hk
    have hcons := cachemanager_consistent dircache (msgs ++ [(pruneSignal, fun _ => now)])
    have hmem := (hcons.2 k).2 hk
    simp only [CacheState.keys, List.mem_map] at hmem
    obtain ⟨e, he, hek⟩ := hmem
    exact ⟨e, he, hek, hfresh e he⟩

/-- Witness for C2, amended: inserts stamped 50 and 100, TTL 10, prune at 105. -/
theorem prune_removes_expired_when_ordered_witness :
    (insertTimes [(⟨50, ascii "b/", ascii "B"⟩, fun _ => 50),
        (⟨100, ascii "a/", ascii "A"⟩, fun _ => 100)]).Pairwise (fun a b => a ≤ b) ∧
    (cachemanager 10 ([(⟨50, ascii "b/", ascii "B"⟩, fun _ => 50),
        (⟨100, ascii "a/", ascii "A"⟩, fun _ => 100)] ++ [(pruneSignal, fun _ => 105)])).cachemap
      (ascii "b/") = none :=
  ⟨by decide!,
    ((prune_removes_expired_when_ordered 10 105
      [(⟨50, ascii "b/", ascii "B"⟩, fun _ => 50), (⟨100, ascii "a/", ascii "A"⟩, fun _ => 100)]
      (by decide!)).2.1 ⟨50, ascii "b/", ascii "B"⟩ (by decide!) (by decide)).2⟩


/-! ### The handlers -/

theorem ascii_empty : ascii "" = [] := by decide

theorem method_ne : ascii "PROPFIND" ≠ ascii "HEAD" ∧ ascii "PROPFIND" ≠ ascii "GET" ∧
    ascii "HEAD" ≠ ascii "PROPFIND" ∧ ascii "GET" ≠ ascii "PROPFIND" := by decide!

theorem depth_ne : ascii "infinity" ≠ ascii "0" ∧ ascii "infinity" ≠ ascii "1" ∧
    ([] : Bytes) ≠ ascii "0" ∧ ([] : Bytes) ≠ ascii "1" := by decide!

theorem webdav_propfind (env : Env) (cachemap : GoMap) (r : Request)
    (hm : r.method = ascii "PROPFIND") :
    webdav env cachemap r = propfind env cachemap r (ResponseWriter.new false) := by
  simp [webdav, hm, method_ne.1, method_ne.2.1]

theorem webdav_headget (env : Env) (cachemap : GoMap) (r : Request)
    (hm : r.method = ascii "HEAD" ∨ r.method = ascii "GET") :
    webdav env cachemap r = headget env r (ResponseWriter.new (r.method = ascii "HEAD")) := by
  simp [webdav, hm]

theorem finish_status (w : ResponseWriter) : w.finish.status = (w.WriteHeader 200).status := by
  unfold ResponseWriter.finish
  simp only
  split <;> rfl

theorem status_of_panic (debug b : Bool) (fsops : List FsOp) (sent : List cacheEntry)
    (stat : Nat) :
    (senderr debug (⟨ResponseWriter.new b, fsops, sent⟩,
      some (PanicValue.sendHTTPStatus stat))).status = stat := by
  simp [senderr, Outcome.status, finish_status, ResponseWriter.WriteHeader,
    ResponseWriter.new]

/-- C1. For every PROPFIND request, whatever its path and the cache: with no
Depth header, an empty one or `infinity` the status is 403; with a Depth header
other than `0`, `1`, the empty string and `infinity` the status is 400; in both
cases no file system call is made and nothing is sent to the cache worker. -/
theorem propfind_depth_rejected (env : Env) (cachemap : GoMap) (r : Request)
    (hm : r.method = ascii "PROPFIND") :
    ((r.depth = none ∨ r.depth = some (ascii "") ∨ r.depth = some (ascii "infinity")) →
      (webdav env cachemap r).status = 403 ∧ (webdav env cachemap r).run.fsops = [] ∧
        (webdav env cachemap r).run.sent = []) ∧
    (∀ d, r.depth = some d → d ≠ ascii "0" → d ≠ ascii "1" → d ≠ ascii "" →
      d ≠ ascii "infinity" →
      (webdav env cachemap r).status = 400 ∧ (webdav env cachemap r).run.fsops = [] ∧
        (webdav env cachemap r).run.sent = []) := by
  rw [webdav_propfind env cachemap r hm]
  constructor
  · intro hd
    have hbody : propfindBody env cachemap r (ResponseWriter.new false)
        = (⟨ResponseWriter.new false, [], []⟩, some (PanicValue.sendHTTPStatus 403)) := by
      rcases hd with hd | hd | hd <;>
        simp [propfindBody, hd, ascii_empty, depth_ne.1, depth_ne.2.1, depth_ne.2.2.1,
          depth_ne.2.2.2]
    rw [propfind, hbody]
    exact ⟨status_of_panic _ _ _ _ _, by simp [senderr], by simp [senderr]⟩
  · intro d hd h0 h1 he hi
    have hbody : propfindBody env cachemap r (ResponseWriter.new false)
        = (⟨ResponseWriter.new false, [], []⟩, some (PanicValue.sendHTTPStatus 400)) := by
      simp [propfindBody, hd, h0, h1, he, hi]
    rw [propfind, hbody]
    exact ⟨status_of_panic _ _ _ _ _, by simp [senderr], by simp [senderr]⟩

/-- Witness for C1: `PROPFIND /music/` without a Depth header and with `Depth: 2`. -/
theorem propfind_depth_rejected_witness :
    (webdav exampleEnv GoMap.empty { exampleRequest with depth := none }).status = 403 ∧
    (webdav exampleEnv GoMap.empty { exampleRequest with depth := some (ascii "2") }).status
      = 400 :=
  ⟨((propfind_depth_rejected exampleEnv GoMap.empty { exampleRequest with depth := none }
      (by decide!)).1 (Or.inl rfl)).1,
   ((propfind_depth_rejected exampleEnv GoMap.empty
      { exampleRequest with depth := some (ascii "2") } (by decide!)).2 (ascii "2") rfl
      (by decide!) (by decide!) (by decide!) (by decide!)).1⟩


/-- What `propfind` does on a cache hit: one `Write` of the stored payload, no
status written by the handler. -/
theorem propfind_hit (env : Env) (cachemap : GoMap) (r : Request) (c : Byte) (tl data : Bytes)
    (hd : r.depth = some (ascii "0") ∨ r.depth = some (ascii "1"))
    (hp : (QueryUnescape r.path).getD [] = c :: tl)
    (hhit : cachemap (stripSlash tl ++ ascii "/") = some data) :
    propfindBody env cachemap r (ResponseWriter.new false)
      = (⟨WriteTo data (ResponseWriter.new false), [], []⟩, none) := by
  rcases hd with hd | hd <;> simp [propfindBody, hd, hp, hhit]

/-- C5, the code at a failing input. `PROPFIND /music/` with `Depth: 1` is
answered 207 on the empty cache and its listing is stored under `music/`. The same
request on that cache returns the stored payload, reads no directory and sends
nothing to the cache worker, but the handler writes no status on this path, so
the client gets status 200 and not 207. -/
theorem propfind_cache_hit_status :
    (webdav exampleEnv GoMap.empty exampleRequest).status = 207 ∧
    exampleCache (ascii "music/") = some (webdav exampleEnv GoMap.empty exampleRequest).body ∧
    (webdav exampleEnv exampleCache exampleRequest).status = 200 ∧
    (webdav exampleEnv exampleCache exampleRequest).body
      = (webdav exampleEnv GoMap.empty exampleRequest).body ∧
    (webdav exampleEnv exampleCache exampleRequest).run.sent = [] ∧
    (webdav exampleEnv exampleCache exampleRequest).run.fsops = [] := by
  decide!

/-- On every cache hit the status the client receives is 200, the body is the
stored payload, and no file system call or cache message is made. -/
theorem propfind_hit_outcome (env : Env) (cachemap : GoMap) (r : Request) (c : Byte)
    (tl data : Bytes) (hm : r.method = ascii "PROPFIND")
    (hd : r.depth = some (ascii "0") ∨ r.depth = some (ascii "1"))
    (hp : (QueryUnescape r.path).getD [] = c :: tl)
    (hhit : cachemap (stripSlash tl ++ ascii "/") = some data) :
    (webdav env cachemap r).status = 200 ∧ (webdav env cachemap r).body = data ∧
      (webdav env cachemap r).run.sent = [] ∧ (webdav env cachemap r).run.fsops = [] := by
  rw [webdav_propfind env cachemap r hm, propfind, propfind_hit env cachemap r c tl data hd hp hhit]
  by_cases hlen : 0 < data.length
  · simp [senderr, Outcome.status, Outcome.body, WriteTo, hlen, ResponseWriter.Write,
      finish_status, ResponseWriter.WriteHeader, ResponseWriter.new]
  · have hnil : data = [] := by
      cases data with
      | nil => rfl
      | cons a t => simp at hlen
    simp [senderr, Outcome.status, Outcome.body, WriteTo, hnil, finish_status,
      ResponseWriter.WriteHeader, ResponseWriter.new]

/-- C10, the code at a failing input. `PROPFIND /music/` with `Depth: 1` misses
the cache and renders 2541 bytes with status 207. The handler sets `content-length`
after the status is written, so the headers that are sent hold no such entry (and
the server adds none to a body of this size); and the value it sets is
`string(2541)`, the three bytes of the code point 2541, not the decimal digits
`2541`. -/
theorem propfind_content_length_not_sent :
    (webdav exampleEnv GoMap.empty exampleRequest).status = 207 ∧
    (webdav exampleEnv GoMap.empty exampleRequest).body.length = 2541 ∧
    headerGet (webdav exampleEnv GoMap.empty exampleRequest).run.w.finish.sentHeader
      (CanonicalMIMEHeaderKey (ascii "content-length")) = none ∧
    headerGet (webdav exampleEnv GoMap.empty exampleRequest).run.w.header
      (CanonicalMIMEHeaderKey (ascii "content-length")) = some (intToString 2541) ∧
    intToString 2541 ≠ FormatInt 2541 := by
  decide!

/-- A short response gets its `Content-Length` from the server: `PROPFIND /nothere`
is answered 404 with `Content-Length: 0`. -/
theorem short_response_content_length :
    headerGet (webdav exampleEnv GoMap.empty exampleRequestMissing).run.w.finish.sentHeader
      (ascii "Content-Length") = some (ascii "0") := by
  decide!

/-! ### Canonicalization of the request path -/

theorem Clean_rooted (path : Bytes) (h : IsAbs path = true) : IsAbs (Clean path) = true := by
  have h1 : path.head? = some (ch '/') := by simpa [IsAbs] using h
  simp [Clean, IsAbs, h1]

theorem Abs_rooted (getwd : Option Bytes) (path : Bytes) (h : IsAbs path = true) :
    Abs getwd path = some (Clean path) := by
  simp [Abs, h]

theorem IsAbs_append (a b : Bytes) (h : IsAbs a = true) : IsAbs (a ++ b) = true := by
  cases a with
  | nil => simp [IsAbs] at h
  | cons x a => simpa [IsAbs] using h

/-- The directory `main` leaves in `basedir` is rooted: `filepath.Abs` gives a
rooted path, and after an error `basedir` is `/`. -/
theorem basedir_rooted (env : Env) : IsAbs env.basedir = true := by
  have hslash : IsAbs (ascii "/") = true := by decide!
  unfold Env.basedir
  by_cases hb : IsAbs env.base = true
  · rw [Abs_rooted _ _ hb]
    exact IsAbs_append _ _ (Clean_rooted _ hb)
  · cases hwd : env.getwd with
    | none => simpa [Abs, hb, hwd] using hslash
    | some wd =>
      have hw := env.getwd_abs wd hwd
      have hne : wd ≠ [] := by
        intro h0
        rw [h0] at hw
        simp [IsAbs] at hw
      have : Abs (some wd) env.base = some (Clean (wd ++ ascii "/" ++ env.base)) := by
        simp [Abs, hb, Join, hne]
      rw [this]
      apply IsAbs_append
      apply Clean_rooted
      rw [List.append_assoc]
      exact IsAbs_append _ _ hw

/-- Canonicalization of base directory + request path does not fail: the path
is rooted, so `filepath.Abs` never asks for the working directory. -/
theorem abs_basedir (env : Env) (requestpath : Bytes) :
    Abs env.getwd (Clean (env.basedir ++ requestpath))
      = some (Clean (Clean (env.basedir ++ requestpath))) :=
  Abs_rooted _ _ (Clean_rooted _ (IsAbs_append _ _ (basedir_rooted env)))

/-- C6. For a request whose decoded path is `c :: tl` and is unresolvable, that
is, canonicalization of base directory + path (`filepath.Abs` of the cleaned path)
fails or the resolved file or directory cannot be opened: the status is 404, for
GET and HEAD and for PROPFIND with Depth `0` or `1` on a cache miss. -/
theorem unresolvable_path_status (env : Env) (cachemap : GoMap) (r : Request) (c : Byte)
    (tl : Bytes) (hp : (QueryUnescape r.path).getD [] = c :: tl) :
    ((r.method = ascii "HEAD" ∨ r.method = ascii "GET") →
      (Abs env.getwd (Clean (env.basedir ++ tl)) = none ∨
        ∃ filename, Abs env.getwd (Clean (env.basedir ++ tl)) = some filename ∧
          env.osOpen filename = none) →
      (webdav env cachemap r).status = 404) ∧
    (r.method = ascii "PROPFIND" →
      (r.depth = some (ascii "0") ∨ r.depth = some (ascii "1")) →
      cachemap (stripSlash tl ++ ascii "/") = none →
      (Abs env.getwd (Clean (env.basedir ++ stripSlash tl)) = none ∨
        ∃ dirname, Abs env.getwd (Clean (env.basedir ++ stripSlash tl)) = some dirname ∧
          env.osOpen dirname = none) →
      (webdav env cachemap r).status = 404) := by
  constructor
  · intro hm hfail
    rw [webdav_headget env cachemap r hm, headget]
    rcases hfail with habs | ⟨filename, habs, hopen⟩
    · rw [abs_basedir] at habs
      cases habs
    · have hbody : headgetBody env r (ResponseWriter.new (r.method = ascii "HEAD"))
          = (⟨ResponseWriter.new (r.method = ascii "HEAD"), [FsOp.osOpen filename], []⟩,
              some (PanicValue.sendHTTPStatus 404)) := by
        simp [headgetBody, hp, habs, hopen]
      rw [hbody]
      exact status_of_panic _ _ _ _ _
  · intro hm hd hmiss hfail
    rw [webdav_propfind env cachemap r hm, propfind]
    rcases hfail with habs | ⟨dirname, habs, hopen⟩
    · rw [abs_basedir] at habs
      cases habs
    · have hbody : propfindBody env cachemap r (ResponseWriter.new false)
          = (⟨ResponseWriter.new false, [FsOp.osOpen dirname], []⟩,
              some (PanicValue.sendHTTPStatus 404)) := by
        rcases hd with hd | hd <;> simp [propfindBody, hd, hp, hmiss, habs, hopen]
      rw [hbody]
      exact status_of_panic _ _ _ _ _

/-- Witness for C6: `GET /nothere` and `PROPFIND /nothere` on a disk without that
name answer 404. -/
theorem unresolvable_path_status_witness :
    (webdav exampleEnv GoMap.empty { exampleRequestMissing with method := ascii "GET" }).status
      = 404 ∧
    (webdav exampleEnv GoMap.empty exampleRequestMissing).status = 404 :=
  ⟨(unresolvable_path_status exampleEnv GoMap.empty
      { exampleRequestMissing with method := ascii "GET" } (ch '/') (ascii "nothere")
      (by decide!)).1 (Or.inr rfl) (Or.inr ⟨ascii "/srv/nothere", by decide!, by decide!⟩),
   (unresolvable_path_status exampleEnv GoMap.empty exampleRequestMissing (ch '/')
      (ascii "nothere") (by decide!)).2 rfl (Or.inr rfl) rfl
      (Or.inr ⟨ascii "/srv/nothere", by decide!, by decide!⟩)⟩

/-! ### Substrings -/

theorem startsWith_iff : ∀ (s p : Bytes), startsWith s p = true ↔ ∃ t, s = p ++ t := by
  intro s p
  induction p generalizing s with
  | nil => cases s <;> simp [startsWith]
  | cons a p ih =>
    cases s with
    | nil => simp [startsWith]
    | cons b s =>
      simp only [startsWith, Bool.and_eq_true, decide_eq_true_eq, ih, List.cons_append,
        List.cons.injEq]
      constructor
      · rintro ⟨rfl, t, rfl⟩
        exact ⟨t, rfl, rfl⟩
      · rintro ⟨t, rfl, rfl⟩
        exact ⟨rfl, t, rfl⟩

theorem contains_nil_iff (p : Bytes) : Contains [] p ↔ startsWith [] p = true := by
  rw [startsWith_iff]
  constructor
  · rintro ⟨a, b, h⟩
    have h1 : a ++ p ++ b = [] := h.symm
    simp only [List.append_eq_nil] at h1
    exact ⟨[], by simp [h1.1.2]⟩
  · rintro ⟨t, h⟩
    exact ⟨[], t, by simpa using h⟩

theorem contains_cons_iff (x : Byte) (s p : Bytes) :
    Contains (x :: s) p ↔ startsWith (x :: s) p = true ∨ Contains s p := by
  rw [startsWith_iff]
  constructor
  · rintro ⟨a, b, h⟩
    cases a with
    | nil => exact Or.inl ⟨b, by simpa using h⟩
    | cons y a =>
      simp only [List.cons_append, List.cons.injEq] at h
      exact Or.inr ⟨a, b, h.2⟩
  · rintro (⟨t, h⟩ | ⟨a, b, h⟩)
    · exact ⟨[], t, by simpa using h⟩
    · exact ⟨x :: a, b, by simp [h]⟩

theorem containsBytes_iff (s p : Bytes) : containsBytes s p = true ↔ Contains s p := by
  induction s with
  | nil => rw [contains_nil_iff]; simp [containsBytes]
  | cons x s ih => rw [contains_cons_iff, ← ih]; simp [containsBytes]

theorem contains_self_append (p y : Bytes) : Contains (p ++ y) p := ⟨[], y, by simp⟩

theorem contains_append_left (x y p : Bytes) (h : Contains y p) : Contains (x ++ y) p := by
  obtain ⟨a, b, rfl⟩ := h
  exact ⟨x ++ a, b, by simp [List.append_assoc]⟩

/-! ### Query escaping -/

theorem hex_roundtrip : ∀ c : Byte,
    (ishex (upperhex (c.val >>> 4)) && ishex (upperhex (c.val &&& 15))) = true ∧
      (Fin.ofNat ((unhex (upperhex (c.val >>> 4)) <<< 4) ||| unhex (upperhex (c.val &&& 15))) : Byte)
        = c := by
  decide!

theorem kept_byte : ∀ c : Byte, shouldEscape c = false → c ≠ ch '%' ∧ c ≠ ch '+' := by
  decide!

theorem QueryUnescape_plus (t : Bytes) :
    QueryUnescape (ch '+' :: t) = (QueryUnescape t).map (fun r => ch ' ' :: r) := by
  have h : ch '+' ≠ ch '%' := by decide!
  conv_lhs => unfold QueryUnescape
  simp [h]

theorem QueryUnescape_hex (a b : Byte) (rest : Bytes) (h : (ishex a && ishex b) = true) :
    QueryUnescape (ch '%' :: a :: b :: rest)
      = (QueryUnescape rest).map (fun t => Fin.ofNat ((unhex a <<< 4) ||| unhex b) :: t) := by
  rw [QueryUnescape]
  simp only [if_true, h]

theorem QueryUnescape_kept (c : Byte) (t : Bytes) (h1 : c ≠ ch '%') (h2 : c ≠ ch '+') :
    QueryUnescape (c :: t) = (QueryUnescape t).map (fun r => c :: r) := by
  conv_lhs => unfold QueryUnescape
  simp [h1, h2]

theorem QueryUnescape_QueryEscape (s : Bytes) : QueryUnescape (QueryEscape s) = some s := by
  induction s with
  | nil => simp [QueryEscape, QueryUnescape]
  | cons c s ih =>
    unfold QueryEscape
    split
    · rename_i hsp
      rw [QueryUnescape_plus, ih, hsp]
      rfl
    · split
      · rw [QueryUnescape_hex _ _ _ (hex_roundtrip c).1, ih, (hex_roundtrip c).2]
        rfl
      · rename_i hkeep
        have hk := kept_byte c (by simpa using hkeep)
        rw [QueryUnescape_kept c _ hk.1 hk.2, ih]
        rfl


theorem contains_here3 (A B C R : Bytes) : Contains (A ++ (B ++ (C ++ R))) (A ++ (B ++ C)) :=
  ⟨[], R, by simp [List.append_assoc]⟩

theorem contains_here4 (A B C D R : Bytes) :
    Contains (A ++ (B ++ (C ++ (D ++ R)))) (A ++ (B ++ (C ++ D))) :=
  ⟨[], R, by simp [List.append_assoc]⟩

theorem href_close_split :
    ascii "</D:href>\n<D:propstat>\n<D:prop>\n<D:creationdate ns0:dt=\"dateTime.tz\">"
      = ascii "</D:href>" ++ ascii "\n<D:propstat>\n<D:prop>\n<D:creationdate ns0:dt=\"dateTime.tz\">" := by
  decide!

/-- Counterexample to C8 as stated. The name `a b.txt` is written as `a+b.txt`:
the block of the entry holds no `a%20b.txt`, and the decoder that only replaces
`%XX` returns `a+b.txt`, not the name. -/
theorem href_space_written_as_plus :
    QueryEscape (ascii "a b.txt") = ascii "a+b.txt" ∧
    specPercentDecode (QueryEscape (ascii "a b.txt")) ≠ ascii "a b.txt" ∧
    ¬ Contains (entryResponse exampleEnv (ascii "nas:8080") (ascii "music")
        ⟨ascii "a b.txt", 12, 1355560260, false⟩) (ascii "a%20b.txt") :=
  ⟨by decide!, by decide!, fun h => absurd ((containsBytes_iff _ _).2 h) (by decide!)⟩

/-- C8, amended. The name of a directory entry is written into its `<D:href>` in
the query escaping of `url.QueryEscape` (a space as `+`, other escaped bytes as
`%XX`): the block holds `/`, the escaped name (and `/` for a directory), then
`</D:href>`; decoding the escaped name with `url.QueryUnescape`, which also turns
`+` into a space, gives back the name; the name `a b.txt` is written `a+b.txt`. -/
theorem href_name_roundtrip (env : Env) (rhostname requestpath : Bytes) (fi : FileInfo) :
    QueryUnescape (QueryEscape fi.name) = some fi.name ∧
    Contains (entryResponse env rhostname requestpath fi)
      (ascii "/" ++ (QueryEscape fi.name ++ ((if fi.isDir then ascii "/" else []) ++ ascii "</D:href>"))) ∧
    QueryEscape (ascii "a b.txt") = ascii "a+b.txt" := by
  refine ⟨QueryUnescape_QueryEscape fi.name, ?_, by decide!⟩
  unfold entryResponse
  cases hdir : fi.isDir
  · simp only [Bool.not_false, if_true, Bool.false_eq_true, if_false, List.nil_append]
    unfold fileResponse
    rw [href_close_split]
    simp only [List.append_assoc]
    repeat (first | exact contains_here3 _ _ _ _ | apply contains_append_left)
  · simp only [Bool.not_true, Bool.false_eq_true, if_false, if_true]
    unfold dirResponse tempurl
    rw [href_close_split]
    split
    · simp only [List.append_assoc]
      repeat (first | exact contains_here4 _ _ _ _ _ | apply contains_append_left)
    · simp only [List.append_assoc]
      repeat (first | exact contains_here4 _ _ _ _ _ | apply contains_append_left)


/-! ### Where an occurrence can start -/

theorem clash_startsWith : ∀ (p s : Bytes), clash p s = true →
    ∀ y : Bytes, startsWith (s ++ y) p = false := by
  intro p
  induction p with
  | nil => intro s h; cases s <;> simp [clash] at h
  | cons a p ih =>
    intro s h y
    cases s with
    | nil => simp [clash] at h
    | cons b s =>
      simp only [clash, Bool.or_eq_true, decide_eq_true_eq] at h
      simp only [List.cons_append, startsWith, Bool.and_eq_false_iff, decide_eq_false_iff_not]
      rcases h with h | h
      · exact Or.inl h
      · exact Or.inr (ih s h y)

theorem noStart_skip (p : Bytes) : ∀ (x y : Bytes), noStart p x = true →
    Contains (x ++ y) p → Contains y p := by
  intro x
  induction x with
  | nil => intro y _ h; simpa using h
  | cons t x ih =>
    intro y hn h
    simp only [noStart, Bool.and_eq_true] at hn
    rw [List.cons_append, contains_cons_iff] at h
    rcases h with h | h
    · have := clash_startsWith p (t :: x) hn.1 y
      rw [List.cons_append] at this
      rw [this] at h
      cases h
    · exact ih y hn.2 h

theorem noStart_free (a : Byte) (q : Bytes) : ∀ v : Bytes, a ∉ v → noStart (a :: q) v = true := by
  intro v
  induction v with
  | nil => intro _; rfl
  | cons b v ih =>
    intro h
    simp only [List.mem_cons, not_or] at h
    simp only [noStart, clash, Bool.and_eq_true, Bool.or_eq_true, decide_eq_true_eq]
    exact ⟨Or.inl h.1, ih h.2⟩

theorem split_unique (a : Byte) : ∀ (u v x y : Bytes), a ∉ u → a ∉ v →
    u ++ a :: x = v ++ a :: y → u = v := by
  intro u
  induction u with
  | nil =>
    intro v x y _ hv h
    cases v with
    | nil => rfl
    | cons b v =>
      simp only [List.nil_append, List.cons_append, List.cons.injEq] at h
      simp only [List.mem_cons, not_or] at hv
      exact absurd h.1 hv.1
  | cons c u ih =>
    intro v x y hu hv h
    simp only [List.mem_cons, not_or] at hu
    cases v with
    | nil =>
      simp only [List.nil_append, List.cons_append, List.cons.injEq] at h
      exact absurd h.1.symm hu.1
    | cons b v =>
      simp only [List.cons_append, List.cons.injEq] at h
      simp only [List.mem_cons, not_or] at hv
      rw [h.1, ih v x y hu.2 hv.2 h.2]

theorem QueryEscape_avoids (x : Byte)
    (hx : ∀ c : Byte, upperhex (c.val >>> 4) ≠ x ∧ upperhex (c.val &&& 15) ≠ x ∧
      (shouldEscape c = false → c ≠ x))
    (hplus : x ≠ ch '+') (hpct : x ≠ ch '%') (s : Bytes) : x ∉ QueryEscape s := by
  induction s with
  | nil => simp [QueryEscape]
  | cons c s ih =>
    have hc := hx c
    unfold QueryEscape
    split
    · simp only [List.mem_cons, not_or]
      exact ⟨hplus, ih⟩
    · split
      · simp only [List.mem_cons, not_or]
        exact ⟨hpct, hc.1.symm, hc.2.1.symm, ih⟩
      · rename_i hkeep
        simp only [List.mem_cons, not_or]
        exact ⟨(hc.2.2 (by simpa using hkeep)).symm, ih⟩

theorem QueryEscape_no_lt (s : Bytes) : ch '<' ∉ QueryEscape s :=
  QueryEscape_avoids (ch '<') (by decide!) (by decide!) (by decide!) s

theorem QueryEscape_no_gt (s : Bytes) : ch '>' ∉ QueryEscape s :=
  QueryEscape_avoids (ch '>') (by decide!) (by decide!) (by decide!) s

theorem QueryEscape_no_slash (s : Bytes) : ch '/' ∉ QueryEscape s :=
  QueryEscape_avoids (ch '/') (by decide!) (by decide!) (by decide!) s

/-- Two strings whose first byte out of `a` and `b` differs are different. -/
theorem first_mark (a b : Byte) (hab : a ≠ b) : ∀ (E U R W : Bytes), a ∉ E → b ∉ E →
    a ∉ U → b ∉ U → E ++ b :: R ≠ U ++ a :: W := by
  intro E
  induction E with
  | nil =>
    intro U R W _ _ _ hUb h
    cases U with
    | nil =>
      simp only [List.nil_append, List.cons.injEq] at h
      exact hab h.1.symm
    | cons x U =>
      simp only [List.nil_append, List.cons_append, List.cons.injEq] at h
      simp only [List.mem_cons, not_or] at hUb
      exact hUb.1 h.1
  | cons e E ih =>
    intro U R W hEa hEb hUa hUb h
    simp only [List.mem_cons, not_or] at hEa hEb
    cases U with
    | nil =>
      simp only [List.nil_append, List.cons_append, List.cons.injEq] at h
      exact hEa.1 h.1.symm
    | cons x U =>
      simp only [List.cons_append, List.cons.injEq] at h
      simp only [List.mem_cons, not_or] at hUa hUb
      exact ih U R W hEa.2 hEb.2 hUa.2 hUb.2 h.2

/-- An occurrence of `u/U` followed by `a` cannot start inside a host without
`/` that is followed by `/`, an escaped path `E` and `/`. -/
theorem skip_host (a b : Byte) (hab : a ≠ b) (u U W : Bytes) : ∀ (host E R : Bytes),
    b ∉ u → a ∉ U → b ∉ U → b ∉ host → a ∉ E → b ∉ E →
    Contains (host ++ ([b] ++ (E ++ ([b] ++ R)))) (u ++ b :: (U ++ a :: W)) →
    Contains ([b] ++ (E ++ ([b] ++ R))) (u ++ b :: (U ++ a :: W)) := by
  intro host
  induction host with
  | nil => intro E R _ _ _ _ _ _ h; simpa using h
  | cons x host ih =>
    intro E R hu hUa hUb hh hEa hEb h
    rw [List.cons_append, contains_cons_iff] at h
    rcases h with h | h
    · exfalso
      rw [startsWith_iff] at h
      obtain ⟨t, ht⟩ := h
      have ht1 : (x :: host) ++ b :: (E ++ b :: R) = u ++ b :: ((U ++ a :: W) ++ t) := by
        simpa [List.append_assoc] using ht
      have hux := split_unique b _ _ _ _ hh hu ht1
      rw [hux] at ht1
      have ht2 := List.append_cancel_left ht1
      simp only [List.cons.injEq, true_and, List.append_assoc, List.cons_append] at ht2
      exact first_mark a b hab E U R (W ++ t) hEa hEb hUa hUb ht2
    · simp only [List.mem_cons, not_or] at hh
      exact ih E R hu hUa hUb hh.2 hEa hEb h

theorem digit_no_lt : ∀ k : Fin 10, (Fin.ofNat (48 + k.val) : Byte) ≠ ch '<' := by
  decide!

theorem formatNatAux_no_lt : ∀ (fuel n : Nat) (acc : Bytes), ch '<' ∉ acc →
    ch '<' ∉ formatNatAux fuel n acc := by
  intro fuel
  induction fuel with
  | zero => intro n acc h; simpa [formatNatAux] using h
  | succ fuel ih =>
    intro n acc h
    unfold formatNatAux
    split
    · rename_i hn
      simp only [List.mem_cons, not_or]
      exact ⟨(digit_no_lt ⟨n, hn⟩).symm, h⟩
    · apply ih
      simp only [List.mem_cons, not_or]
      exact ⟨(digit_no_lt ⟨n % 10, Nat.mod_lt _ (by decide)⟩).symm, h⟩

theorem FormatInt_no_lt (i : Int) : ch '<' ∉ FormatInt i := by
  have hminus : ch '<' ≠ ch '-' := by decide!
  unfold FormatInt
  split
  · simp only [List.mem_cons, not_or]
    exact ⟨hminus, formatNatAux_no_lt _ _ [] (by simp)⟩
  · exact formatNatAux_no_lt _ _ [] (by simp)


/-! ### Directory and file blocks -/

theorem no_collection_in_file (env : Env) (r : Request) (requestpath : Bytes) (fi : FileInfo) :
    ¬ Contains (fileResponse env r.host requestpath fi) (ascii "<D:collection/>") := by
  have hP : ascii "<D:collection/>" = ch '<' :: ascii "D:collection/>" := by decide!
  have hH : ch '<' :: ascii "D:collection/>"
      = ascii "<D:collection" ++ ch '/' :: ([] ++ ch '>' :: []) := by decide!
  have hS : ascii "/" = [ch '/'] := by decide!
  intro h
  unfold fileResponse at h
  rw [hP, hS] at h
  simp only [List.append_assoc] at h
  have h := noStart_skip _ _ _ (by decide!) h
  rw [hH] at h
  have h := skip_host (ch '>') (ch '/') (by decide!) _ _ _ _ _ _ (by decide!)
    (by decide!) (by decide!) r.host_no_slash (QueryEscape_no_gt _) (QueryEscape_no_slash _) h
  rw [← hH] at h
  have h := noStart_skip _ _ _ (by decide!) h
  have h := noStart_skip _ _ _ (noStart_free _ _ _ (QueryEscape_no_lt _)) h
  have h := noStart_skip _ _ _ (by decide!) h
  have h := noStart_skip _ _ _ (noStart_free _ _ _ (QueryEscape_no_lt _)) h
  have h := noStart_skip _ _ _ (by decide!) h
  have h := noStart_skip _ _ _ (noStart_free _ _ _ (env.rfc3339_plain _)) h
  have h := noStart_skip _ _ _ (by decide!) h
  have h := noStart_skip _ _ _ (noStart_free _ _ _ (FormatInt_no_lt _)) h
  have h := noStart_skip _ _ _ (by decide!) h
  have h := noStart_skip _ _ _ (noStart_free _ _ _ (env.mime_plain _)) h
  have h := noStart_skip _ _ _ (by decide!) h
  have h := noStart_skip _ _ _ (noStart_free _ _ _ (env.rfc1123_plain _)) h
  exact absurd ((containsBytes_iff _ _).2 h) (by decide!)

theorem no_directory_type_in_file (env : Env) (r : Request) (requestpath : Bytes)
    (fi : FileInfo) :
    ¬ Contains (fileResponse env r.host requestpath fi)
      (ascii "<D:getcontenttype>httpd/unix-directory</D:getcontenttype>") := by
  have hP : ascii "<D:getcontenttype>httpd/unix-directory</D:getcontenttype>"
      = ch '<' :: ascii "D:getcontenttype>httpd/unix-directory</D:getcontenttype>" := by decide!
  have hH : ch '<' :: ascii "D:getcontenttype>httpd/unix-directory</D:getcontenttype>"
      = ascii "<D:getcontenttype>httpd"
        ++ ch '/' :: (ascii "unix-directory" ++ ch '<' :: ascii "/D:getcontenttype>") := by
    decide!
  have hS : ascii "/" = [ch '/'] := by decide!
  have hT : ascii "</D:getcontentlength><D:getcontenttype>"
      = ascii "</D:getcontentlength>" ++ ch '<' :: ascii "D:getcontenttype>" := by decide!
  have hQ : ch '<' :: ascii "D:getcontenttype>httpd/unix-directory</D:getcontenttype>"
      = (ch '<' :: ascii "D:getcontenttype>")
        ++ (ascii "httpd/unix-directory" ++ ch '<' :: ascii "/D:getcontenttype>") := by decide!
  have hN : ascii "</D:getcontenttype><D:getlastmodified ns0:dt=\"dateTime.rfc1123\">"
      = ch '<' :: ascii "/D:getcontenttype><D:getlastmodified ns0:dt=\"dateTime.rfc1123\">" := by
    decide!
  have hD : ch '<' ∉ ascii "httpd/unix-directory" := by decide!
  intro h
  unfold fileResponse at h
  rw [hP, hT, hS] at h
  simp only [List.append_assoc] at h
  have h := noStart_skip _ _ _ (by decide!) h
  rw [hH] at h
  have h := skip_host (ch '<') (ch '/') (by decide!) _ _ _ _ _ _ (by decide!)
    (by decide!) (by decide!) r.host_no_slash (QueryEscape_no_lt _) (QueryEscape_no_slash _) h
  rw [← hH] at h
  have h := noStart_skip _ _ _ (by decide!) h
  have h := noStart_skip _ _ _ (noStart_free _ _ _ (QueryEscape_no_lt _)) h
  have h := noStart_skip _ _ _ (by decide!) h
  have h := noStart_skip _ _ _ (noStart_free _ _ _ (QueryEscape_no_lt _)) h
  have h := noStart_skip _ _ _ (by decide!) h
  have h := noStart_skip _ _ _ (noStart_free _ _ _ (env.rfc3339_plain _)) h
  have h := noStart_skip _ _ _ (by decide!) h
  have h := noStart_skip _ _ _ (noStart_free _ _ _ (FormatInt_no_lt _)) h
  have h := noStart_skip _ _ _ (by decide!) h
  rw [List.cons_append, contains_cons_iff] at h
  rcases h with h | h
  · rw [startsWith_iff] at h
    obtain ⟨t, ht⟩ := h
    rw [hQ, ← List.cons_append, List.append_assoc, hN] at ht
    have ht2 := List.append_cancel_left ht
    simp only [List.append_assoc, List.cons_append] at ht2
    exact env.mime_no_directory _ (split_unique (ch '<') _ _ _ _ (env.mime_plain _) hD ht2)
  · have h := noStart_skip _ _ _ (by decide!) h
    have h := noStart_skip _ _ _ (noStart_free _ _ _ (env.mime_plain _)) h
    have h := noStart_skip _ _ _ (by decide!) h
    have h := noStart_skip _ _ _ (noStart_free _ _ _ (env.rfc1123_plain _)) h
    exact absurd ((containsBytes_iff _ _).2 h) (by decide!)

theorem directory_markers_in_dir (env : Env) (rhostname requestpath : Bytes) (fi : FileInfo) :
    Contains (dirResponse env rhostname requestpath fi)
        (ascii "<D:getcontenttype>httpd/unix-directory</D:getcontenttype>") ∧
      Contains (dirResponse env rhostname requestpath fi)
        (ascii "<D:resourcetype><D:collection/></D:resourcetype>") := by
  have h1 : ascii "</D:getcontentlength><D:getcontenttype>httpd/unix-directory</D:getcontenttype><D:getlastmodified ns0:dt=\"dateTime.rfc1123\">"
      = ascii "</D:getcontentlength>"
        ++ (ascii "<D:getcontenttype>httpd/unix-directory</D:getcontenttype>"
          ++ ascii "<D:getlastmodified ns0:dt=\"dateTime.rfc1123\">") := by decide!
  have h2 : ascii "</D:getlastmodified><D:resourcetype><D:collection/></D:resourcetype></D:prop>\n<D:status>HTTP/1.1 200 OK</D:status>\n</D:propstat>\n</D:response>\n"
      = ascii "</D:getlastmodified>"
        ++ (ascii "<D:resourcetype><D:collection/></D:resourcetype>"
          ++ ascii "</D:prop>\n<D:status>HTTP/1.1 200 OK</D:status>\n</D:propstat>\n</D:response>\n") := by
    decide!
  unfold dirResponse
  constructor
  · rw [h1]
    simp only [List.append_assoc]
    iterate 7 apply contains_append_left
    exact contains_self_append _ _
  · rw [h2]
    simp only [List.append_assoc]
    iterate 9 apply contains_append_left
    exact contains_self_append _ _

/-- C9. In a listing, the block of a directory entry has
`<D:getcontenttype>httpd/unix-directory</D:getcontenttype>` and contains the marker
`<D:resourcetype><D:collection/></D:resourcetype>`; the block of an entry that is
not a directory contains neither that content type nor `<D:collection/>`. -/
theorem entry_directory_markers (env : Env) (r : Request) (requestpath : Bytes)
    (fi : FileInfo) :
    (fi.isDir = true →
      Contains (entryResponse env r.host requestpath fi)
          (ascii "<D:getcontenttype>httpd/unix-directory</D:getcontenttype>") ∧
        Contains (entryResponse env r.host requestpath fi)
          (ascii "<D:resourcetype><D:collection/></D:resourcetype>")) ∧
    (fi.isDir = false →
      ¬ Contains (entryResponse env r.host requestpath fi)
          (ascii "<D:getcontenttype>httpd/unix-directory</D:getcontenttype>") ∧
        ¬ Contains (entryResponse env r.host requestpath fi) (ascii "<D:collection/>")) := by
  constructor
  · intro hdir
    have he : entryResponse env r.host requestpath fi
        = dirResponse env r.host requestpath fi := by simp [entryResponse, hdir]
    rw [he]
    exact directory_markers_in_dir env r.host requestpath fi
  · intro hdir
    have he : entryResponse env r.host requestpath fi
        = fileResponse env r.host requestpath fi := by simp [entryResponse, hdir]
    rw [he]
    exact ⟨no_directory_type_in_file env r requestpath fi,
      no_collection_in_file env r requestpath fi⟩

/-- Witness for C9: the directory `live` and the file `a b.txt` of the example
listing. -/
theorem entry_directory_markers_witness :
    Contains (entryResponse exampleEnv exampleRequest.host (ascii "music")
        ⟨ascii "live", 4096, 1355560260, true⟩)
      (ascii "<D:resourcetype><D:collection/></D:resourcetype>") ∧
    ¬ Contains (entryResponse exampleEnv exampleRequest.host (ascii "music")
        ⟨ascii "a b.txt", 12, 1355560260, false⟩) (ascii "<D:collection/>") :=
  ⟨((entry_directory_markers exampleEnv exampleRequest (ascii "music")
      ⟨ascii "live", 4096, 1355560260, true⟩).1 rfl).2,
   ((entry_directory_markers exampleEnv exampleRequest (ascii "music")
      ⟨ascii "a b.txt", 12, 1355560260, false⟩).2 rfl).2⟩

end BlastDav
